import Mathlib

/-!
Verification of the pchtxt → IPS32 compiler (`src/extra/pchtxt2ips.py`,
function `convert_pchtxt_to_ips`).

The embedding works on lines represented as lists of characters.  Python
string primitives used by the source (`str.strip`, `str.split`, `int(s, b)`
with bases 16 and 0, `bytes.fromhex`, `struct.pack('>I', _)`,
`struct.pack('>H', _)`) are modelled explicitly.  File I/O (reading the
source text, writing the output file) is glue around the pure transform and
is represented by the `ConvertResult` value: `noPatches` means the function
returned before creating any output, `packError` means `struct.pack` raised,
and `ok name bytes` carries the output file name and its full byte content.
The fallback document name (derived by the source from the input file path)
is passed in as a parameter.
-/

namespace Pchtxt

/-- A source line, as a list of characters (the tool reads ASCII text). -/
abbrev Line := List Char

/-- ASCII whitespace recognized by Python's `str.strip` / `str.split`. -/
def isPyWs (c : Char) : Bool :=
  c == ' ' || c == '\t' || c == '\n' || c == '\r' ||
    c == Char.ofNat 11 || c == Char.ofNat 12

/-- Python `str.strip()`: remove leading and trailing whitespace. -/
def pyStrip (l : List Char) : List Char :=
  ((l.dropWhile isPyWs).reverse.dropWhile isPyWs).reverse

/-- Helper for `pySplit`; the current token is accumulated in reverse. -/
def pySplitAux : List Char → List Char → List (List Char)
  | [], acc => if acc = [] then [] else [acc.reverse]
  | c :: cs, acc =>
    if isPyWs c then
      if acc = [] then pySplitAux cs []
      else acc.reverse :: pySplitAux cs []
    else pySplitAux cs (c :: acc)

/-- Python `str.split()` with no argument: split on runs of whitespace,
producing no empty tokens. -/
def pySplit (l : List Char) : List (List Char) := pySplitAux l []

/-- Model of Python startswith: `leadsWith p l` is `l.startswith(p)`. -/
def leadsWith : List Char → List Char → Bool
  | [], _ => true
  | _ :: _, [] => false
  | p :: ps, c :: cs => p == c && leadsWith ps cs

/-- Value of a single digit character (0-9, a-z, A-Z), as Python's
`int` accepts for bases up to 36. -/
def digitVal (c : Char) : Option Nat :=
  if '0' ≤ c ∧ c ≤ '9' then some (c.toNat - '0'.toNat)
  else if 'a' ≤ c ∧ c ≤ 'z' then some (c.toNat - 'a'.toNat + 10)
  else if 'A' ≤ c ∧ c ≤ 'Z' then some (c.toNat - 'A'.toNat + 10)
  else none

/-- Digit value restricted to a base. -/
def digitValB (base : Nat) (c : Char) : Option Nat :=
  match digitVal c with
  | some d => if d < base then some d else none
  | none => none

/-- Parse a digit run with Python's underscore rules: an underscore must be
preceded and followed by a digit.  The flag records whether the previous
character was a digit (it is also `false` initially, so a leading underscore
or an empty string is rejected). -/
def parseDigitsAux (base : Nat) : List Char → Nat → Bool → Option Nat
  | [], acc, seen => if seen then some acc else none
  | c :: cs, acc, seen =>
    if c = '_' then
      if seen then parseDigitsAux base cs acc false else none
    else
      match digitValB base c with
      | some d => parseDigitsAux base cs (acc * base + d) true
      | none => none

/-- Digit run with no base marker in front. -/
def pyNatDigits (base : Nat) (l : List Char) : Option Nat :=
  parseDigitsAux base l 0 false

/-- Digit run directly after a base marker such as `0x`: Python's grammar
also allows a single underscore between the marker and the first digit. -/
def pyNatAfterMark (base : Nat) : List Char → Option Nat
  | '_' :: rest => parseDigitsAux base rest 0 false
  | l => parseDigitsAux base l 0 false

/-- All characters are `'0'` or `'_'` (Python's base-0 grammar only accepts a
decimal literal with a leading zero when it denotes zero, e.g. `00`, `0_0`). -/
def allZeros (l : List Char) : Bool :=
  l.all fun c => c == '0' || c == '_'

/-- Magnitude part of Python `int(s, base)` for the bases the source uses
(16 for addresses, 0 = auto-detected for the offset-shift literal). -/
def pyIntCore (base : Nat) (l : List Char) : Option Nat :=
  if base = 16 then
    match l with
    | '0' :: x :: rest =>
      if x = 'x' ∨ x = 'X' then pyNatAfterMark 16 rest
      else pyNatDigits 16 l
    | _ => pyNatDigits 16 l
  else if base = 0 then
    match l with
    | '0' :: x :: rest =>
      if x = 'x' ∨ x = 'X' then pyNatAfterMark 16 rest
      else if x = 'o' ∨ x = 'O' then pyNatAfterMark 8 rest
      else if x = 'b' ∨ x = 'B' then pyNatAfterMark 2 rest
      else
        match pyNatDigits 10 l with
        | some _ => if allZeros l then some 0 else none
        | none => none
    | _ => pyNatDigits 10 l
  else pyNatDigits base l

/-- Python `int(s, base)`: surrounding whitespace is stripped, an optional
single sign is honoured, then the magnitude is parsed. -/
def pyInt (l : List Char) (base : Nat) : Option Int :=
  match pyStrip l with
  | '+' :: rest => (pyIntCore base rest).map Int.ofNat
  | '-' :: rest => (pyIntCore base rest).map fun n => -(n : Int)
  | s => (pyIntCore base s).map Int.ofNat

/-- Pair up hex digits into byte values; an odd number of digits or a
non-hex character fails. -/
def hexPairs : List Char → Option (List Nat)
  | [] => some []
  | c1 :: c2 :: rest =>
    match digitValB 16 c1, digitValB 16 c2 with
    | some h, some lo => (hexPairs rest).map fun r => (16 * h + lo) :: r
    | _, _ => none
  | [_] => none

/-- Python `bytes.fromhex`: ASCII whitespace is ignored, the remaining
characters must form whole hex byte pairs.  (The tokens this is applied to
come from `str.split()` and therefore never contain whitespace.) -/
def fromHexChars (l : List Char) : Option (List Nat) :=
  hexPairs (l.filter fun c => !isPyWs c)

/-- Model of `struct.pack` with format `>I`: 4 bytes big-endian; raises (here: `none`) unless
`0 ≤ a < 2^32`. -/
def pack32 (a : Int) : Option (List Nat) :=
  if 0 ≤ a ∧ a < 4294967296 then
    some [a.toNat / 16777216 % 256, a.toNat / 65536 % 256,
          a.toNat / 256 % 256, a.toNat % 256]
  else none

/-- Model of `struct.pack` with format `>H`: 2 bytes big-endian; raises (here: `none`) unless
`n < 2^16` (the argument is a Python `len`, hence never negative). -/
def pack16 (n : Nat) : Option (List Nat) :=
  if n < 65536 then some [n / 256 % 256, n % 256] else none

/-- Diagnostics the conversion can emit while still continuing. -/
inductive Warn where
  | invalidOffset (tok : List Char)
  | invalidAddress (tok : List Char)
  | invalidHex (tok : List Char)
deriving DecidableEq

/-- State of the metadata prepass (source lines 51-72): the candidate
document identifier, the offset shift, and emitted warnings. -/
structure MetaState where
  nsobid : Option (List Char)
  off : Int
  warns : List Warn
deriving DecidableEq

/-- The naming-directive marker `@nsobid-`. -/
def nsobidPfx : List Char := "@nsobid-".toList

/-- The offset-directive marker `@flag offset_shift`. -/
def offsetPfx : List Char := "@flag offset_shift".toList

/-- Metadata handling of one already-stripped line (source lines 55-72).
Every `@nsobid-` line overwrites the identifier; an offset directive with
at least three tokens sets `off`, resetting it to 0 with a warning when
the numeric token does not parse. -/
def metaStepCore (s : MetaState) (ls : List Char) : MetaState :=
  if leadsWith nsobidPfx ls then
    { s with nsobid := some (pyStrip (ls.drop 8)) }
  else if leadsWith offsetPfx ls then
    if 3 ≤ (pySplit ls).length then
      match pyInt ((pySplit ls).getD 2 []) 0 with
      | some v => { s with off := v }
      | none =>
        { s with off := 0, warns := s.warns ++ [.invalidOffset ((pySplit ls).getD 2 [])] }
    else s
  else s

/-- One line of the metadata prepass: strip, then interpret. -/
def metaStep (s : MetaState) (line : Line) : MetaState :=
  metaStepCore s (pyStrip line)

/-- The whole metadata prepass. -/
def docMeta (lines : List Line) : MetaState :=
  lines.foldl metaStep ⟨none, 0, []⟩

/-- The document identifier (source lines 74-76): the `@nsobid-` value if one
was found and non-empty, else the fallback derived from the file name. -/
def docName (fallback : List Char) (lines : List Line) : List Char :=
  match (docMeta lines).nsobid with
  | some n => if n = [] then fallback else n
  | none => fallback

/-- Result of parsing one candidate entry line (source lines 115-135). -/
inductive EntryRes where
  | short
  | badAddr (tok : List Char)
  | badHex (tok : List Char)
  | entry (addr : Int) (val : List Nat)
deriving DecidableEq

/-- Parse an address token and a value token (source lines 120-135):
`int(address_str, 16)` then `bytes.fromhex(value_str)`, each failure
skipping the line with a warning. -/
def parseAddrVal (a v : List Char) : EntryRes :=
  match pyInt a 16 with
  | none => .badAddr a
  | some addr =>
    match fromHexChars v with
    | none => .badHex v
    | some bytes => .entry addr bytes

/-- Tokenize a stripped line and parse the address and value tokens
(source lines 116-135); extra trailing tokens are ignored. -/
def entryParse (ls : List Char) : EntryRes :=
  match pySplit ls with
  | a :: v :: _ => parseAddrVal a v
  | _ => .short

/-- The token `@stop`. -/
def stopTok : List Char := "@stop".toList

/-- The token `@enabled`. -/
def enabledTok : List Char := "@enabled".toList

/-- The token `@disabled`. -/
def disabledTok : List Char := "@disabled".toList

/-- A line skipped as a comment: starts with `@`, `//` or `#`
(source line 108). -/
def isCommentLine (ls : List Char) : Bool :=
  leadsWith ['@'] ls || leadsWith ['/', '/'] ls || leadsWith ['#'] ls

/-- State of the patch-collecting pass (source lines 79-141). -/
structure PState where
  enabled : Bool
  stopped : Bool
  patches : List (Int × List Nat)
  warns : List Warn
deriving DecidableEq

/-- Patch handling of one already-stripped line, with the branch order of
source lines 83-141: blank, `@stop`, already stopped, `@enabled`,
`@disabled`, comment, disabled section, then entry parsing; an accepted
entry records `address + offset_shift` exactly (Python integers do not
wrap). -/
def patchStepCore (off : Int) (s : PState) (ls : List Char) : PState :=
  if ls = [] then s
  else if ls = stopTok then { s with stopped := true }
  else if s.stopped then s
  else if ls = enabledTok then { s with enabled := true }
  else if ls = disabledTok then { s with enabled := false }
  else if isCommentLine ls then s
  else if s.enabled = false then s
  else
    match entryParse ls with
    | .short => s
    | .badAddr tok => { s with warns := s.warns ++ [.invalidAddress tok] }
    | .badHex tok => { s with warns := s.warns ++ [.invalidHex tok] }
    | .entry a v => { s with patches := s.patches ++ [(a + off, v)] }

/-- One line of the patch-collecting pass: strip, then interpret. -/
def patchStep (off : Int) (s : PState) (line : Line) : PState :=
  patchStepCore off s (pyStrip line)

/-- The patch-collecting pass with a given offset shift, starting disabled
and not stopped. -/
def patchRun (off : Int) (lines : List Line) : PState :=
  lines.foldl (patchStep off) ⟨false, false, [], []⟩

/-- The record sequence produced with a given offset shift. -/
def patchesOf (off : Int) (lines : List Line) : List (Int × List Nat) :=
  (patchRun off lines).patches

/-- The record sequence of a document: the patch pass run with the offset
shift extracted by the metadata prepass. -/
def docPatches (lines : List Line) : List (Int × List Nat) :=
  patchesOf (docMeta lines).off lines

/-- Serialize the records (source lines 151-155): per record 4 bytes
big-endian address, 2 bytes big-endian payload length, then the payload;
`none` models `struct.error`. -/
def encodeRecords : List (Int × List Nat) → Option (List Nat)
  | [] => some []
  | (a, v) :: rest =>
    match pack32 a, pack16 v.length, encodeRecords rest with
    | some ab, some lb, some tail => some (ab ++ lb ++ v ++ tail)
    | _, _, _ => none

/-- The `IPS32` header magic bytes. -/
def headMagic : List Nat := [73, 80, 83, 51, 50]

/-- The `EEOF` footer magic bytes. -/
def footMagic : List Nat := [69, 69, 79, 70]

/-- Outcome of one conversion. -/
inductive ConvertResult where
  | noPatches
  | packError
  | ok (name : List Char) (fileBytes : List Nat)
deriving DecidableEq

/-- The whole conversion on split lines (source lines 51-175): metadata
prepass, patch pass, the empty-record bailout, then encoding framed by the
magics; the output file is named `<identifier>.ips`. -/
def convertLines (fallback : List Char) (lines : List Line) : ConvertResult :=
  if docPatches lines = [] then .noPatches
  else
    match encodeRecords (docPatches lines) with
    | none => .packError
    | some data => .ok (docName fallback lines ++ ".ips".toList) (headMagic ++ data ++ footMagic)

/-- The conversion on raw text: Python `split('\n')` then the line passes. -/
def convertText (fallback : List Char) (text : String) : ConvertResult :=
  convertLines fallback ((text.splitOn "\n").map String.toList)

/-- Spec-side section state (enabled, stopped) transition for one line, in
the same branch order as the patch pass; comments and entries leave the
state unchanged. -/
def stateStep (s : Bool × Bool) (line : Line) : Bool × Bool :=
  let ls := pyStrip line
  if ls = [] then s
  else if ls = stopTok then (s.1, true)
  else if s.2 then s
  else if ls = enabledTok then (true, s.2)
  else if ls = disabledTok then (false, s.2)
  else s

/-- Spec-side acceptance of one line: the record it contributes, if it is a
well-formed entry line in an enabled, non-stopped region. -/
def specAccept (off : Int) (s : Bool × Bool) (line : Line) : Option (Int × List Nat) :=
  let ls := pyStrip line
  if ls = [] then none
  else if ls = stopTok then none
  else if s.2 then none
  else if ls = enabledTok then none
  else if ls = disabledTok then none
  else if isCommentLine ls then none
  else if s.1 = false then none
  else
    match entryParse ls with
    | .entry a v => some (a + off, v)
    | _ => none

/-- Spec-side record sequence: scan the section state over the lines and
collect, in source order, the record of every accepted entry line. -/
def specRecords (off : Int) (s : Bool × Bool) : List Line → List (Int × List Nat)
  | [] => []
  | l :: ls => (specAccept off s l).toList ++ specRecords off (stateStep s l) ls

/-- A value token of 131072 hex digits, encoding 65536 bytes. -/
def bigTok : Line := List.replicate 131072 'A'

/-- An entry line whose payload (65536 bytes) exceeds the 16-bit length
field of the binary format. -/
def bigEntryLine : Line := "1000 ".toList ++ bigTok

/-- A document containing one enabled, oversized entry. -/
def bigLines : List Line := ["@enabled".toList, bigEntryLine]

example : pyInt "0x100".toList 0 = some 256 := by decide
example : pyInt "zzz".toList 0 = none := by decide
example : pyInt "256".toList 0 = some 256 := by decide
example : pyInt "1000".toList 16 = some 4096 := by decide
example : pyInt "FFFFFFFF".toList 16 = some 4294967295 := by decide
example : fromHexChars "DEADBEEF".toList = some [222, 173, 190, 239] := by decide
example : fromHexChars "ABC".toList = none := by decide
example : pySplit "1000 AB C".toList = ["1000".toList, "AB".toList, "C".toList] := by decide

theorem leadsWith_cons_false {p c : Char} {ps cs : List Char} (h : (p == c) = false) :
    leadsWith (p :: ps) (c :: cs) = false := by
  simp [leadsWith, h]

theorem patchStepCore_stopped_fix (off : Int) (s : PState) (ls : List Char)
    (h : s.stopped = true) : patchStepCore off s ls = s := by
  obtain ⟨en, st, ps, ws⟩ := s
  replace h : st = true := h
  subst h
  unfold patchStepCore
  split_ifs <;> simp_all

theorem patchStep_stopped_fix (off : Int) (s : PState) (l : Line)
    (h : s.stopped = true) : patchStep off s l = s :=
  patchStepCore_stopped_fix off s (pyStrip l) h

theorem foldl_patchStep_stopped_fix (off : Int) (lines : List Line) :
    ∀ s : PState, s.stopped = true → lines.foldl (patchStep off) s = s := by
  induction lines with
  | nil => intro s _; rfl
  | cons l ls ih =>
    intro s h
    rw [List.foldl_cons, patchStep_stopped_fix off s l h]
    exact ih s h

theorem patchStepCore_stop_sets (off : Int) (s : PState) :
    (patchStepCore off s stopTok).stopped = true := by
  unfold patchStepCore
  split_ifs with h1 <;> simp_all [stopTok]

theorem foldl_patchStep_reaches_stop (off : Int) (lines : List Line) :
    ∀ s : PState, (∃ l ∈ lines, pyStrip l = stopTok) →
      (lines.foldl (patchStep off) s).stopped = true := by
  induction lines with
  | nil => intro s h; simp at h
  | cons l ls ih =>
    intro s h
    rw [List.foldl_cons]
    rcases h with ⟨m, hm, hstrip⟩
    rcases List.mem_cons.mp hm with rfl | hmem
    · have hstop : (patchStep off s m).stopped = true := by
        unfold patchStep
        rw [hstrip]
        exact patchStepCore_stop_sets off s
      rw [foldl_patchStep_stopped_fix off ls _ hstop]
      exact hstop
    · exact ih _ ⟨m, hmem, hstrip⟩

theorem metaStepCore_skip (s : MetaState) (ls : List Char)
    (h1 : leadsWith nsobidPfx ls = false) (h2 : leadsWith offsetPfx ls = false) :
    metaStepCore s ls = s := by
  unfold metaStepCore
  rw [h1, h2]
  simp

theorem metaStep_skip (s : MetaState) (l : Line)
    (h1 : leadsWith nsobidPfx (pyStrip l) = false)
    (h2 : leadsWith offsetPfx (pyStrip l) = false) :
    metaStep s l = s :=
  metaStepCore_skip s (pyStrip l) h1 h2

theorem foldl_metaStep_skip (mid : List Line) :
    ∀ s : MetaState,
      (∀ m ∈ mid, leadsWith nsobidPfx (pyStrip m) = false ∧
        leadsWith offsetPfx (pyStrip m) = false) →
      mid.foldl metaStep s = s := by
  induction mid with
  | nil => intro s _; rfl
  | cons m ms ih =>
    intro s h
    rw [List.foldl_cons,
      metaStep_skip s m (h m (List.mem_cons_self m ms)).1 (h m (List.mem_cons_self m ms)).2]
    exact ih s fun x hx => h x (List.mem_cons_of_mem m hx)

theorem metaStepCore_nsobid_keep (s : MetaState) (ls : List Char)
    (h : leadsWith nsobidPfx ls = false) :
    (metaStepCore s ls).nsobid = s.nsobid := by
  unfold metaStepCore
  rw [h, if_neg (by simp : ¬(false = true))]
  split_ifs <;> try rfl
  split <;> rfl

theorem foldl_metaStep_nsobid_keep (suf : List Line) :
    ∀ s : MetaState, (∀ m ∈ suf, leadsWith nsobidPfx (pyStrip m) = false) →
      (suf.foldl metaStep s).nsobid = s.nsobid := by
  induction suf with
  | nil => intro s _; rfl
  | cons m ms ih =>
    intro s h
    rw [List.foldl_cons]
    rw [ih _ fun x hx => h x (List.mem_cons_of_mem m hx)]
    exact metaStepCore_nsobid_keep s (pyStrip m) (h m (List.mem_cons_self m ms))

theorem patchStep_patches (off : Int) (en st : Bool) (ps : List (Int × List Nat))
    (ws : List Warn) (l : Line) :
    (patchStep off ⟨en, st, ps, ws⟩ l).patches = ps ++ (specAccept off (en, st) l).toList := by
  unfold patchStep patchStepCore specAccept
  dsimp only
  split_ifs <;> try simp
  cases h : entryParse (pyStrip l) <;> simp [h]

theorem patchStep_state (off : Int) (en st : Bool) (ps : List (Int × List Nat))
    (ws : List Warn) (l : Line) :
    ((patchStep off ⟨en, st, ps, ws⟩ l).enabled, (patchStep off ⟨en, st, ps, ws⟩ l).stopped)
      = stateStep (en, st) l := by
  unfold patchStep patchStepCore stateStep
  dsimp only
  split_ifs <;> try simp
  cases h : entryParse (pyStrip l) <;> simp [h]

theorem patchRun_patches_eq_spec (off : Int) (lines : List Line) :
    ∀ (en st : Bool) (ps : List (Int × List Nat)) (ws : List Warn),
      (lines.foldl (patchStep off) ⟨en, st, ps, ws⟩).patches
        = ps ++ specRecords off (en, st) lines := by
  induction lines with
  | nil => intro en st ps ws; simp [specRecords]
  | cons l ls ih =>
    intro en st ps ws
    rw [List.foldl_cons]
    have hs : patchStep off ⟨en, st, ps, ws⟩ l =
        ⟨(patchStep off ⟨en, st, ps, ws⟩ l).enabled,
         (patchStep off ⟨en, st, ps, ws⟩ l).stopped,
         (patchStep off ⟨en, st, ps, ws⟩ l).patches,
         (patchStep off ⟨en, st, ps, ws⟩ l).warns⟩ := rfl
    rw [hs, ih]
    rw [patchStep_patches off en st ps ws l, patchStep_state off en st ps ws l]
    simp only [specRecords]
    rw [List.append_assoc]

theorem patchesOf_eq_spec (off : Int) (lines : List Line) :
    patchesOf off lines = specRecords off (false, false) lines := by
  unfold patchesOf patchRun
  rw [patchRun_patches_eq_spec off lines false false [] []]
  simp

theorem specAccept_shift (K : Int) (s : Bool × Bool) (l : Line) :
    specAccept K s l = (specAccept 0 s l).map fun r => (r.1 + K, r.2) := by
  unfold specAccept
  dsimp only
  split_ifs <;> try simp
  cases h : entryParse (pyStrip l) <;> simp [h]

theorem specRecords_shift (K : Int) (lines : List Line) :
    ∀ s : Bool × Bool,
      specRecords K s lines = (specRecords 0 s lines).map fun r => (r.1 + K, r.2) := by
  induction lines with
  | nil => intro s; rfl
  | cons l ls ih =>
    intro s
    simp only [specRecords]
    rw [specAccept_shift K s l, ih]
    cases specAccept 0 s l <;> simp

theorem patchesOf_shift (K : Int) (lines : List Line) :
    patchesOf K lines = (patchesOf 0 lines).map fun r => (r.1 + K, r.2) := by
  rw [patchesOf_eq_spec, patchesOf_eq_spec, specRecords_shift K lines (false, false)]

theorem pack32_eq_none_of_big {a : Int} (h : (4294967296 : Int) ≤ a) : pack32 a = none := by
  unfold pack32
  rw [if_neg]
  rintro ⟨-, hlt⟩
  omega

theorem pack16_eq_none_of_big {n : Nat} (h : 65536 ≤ n) : pack16 n = none := by
  unfold pack16
  rw [if_neg]
  omega

theorem encodeRecords_eq_none {r : Int × List Nat} :
    ∀ recs : List (Int × List Nat), r ∈ recs →
      pack32 r.1 = none ∨ pack16 r.2.length = none → encodeRecords recs = none := by
  intro recs
  induction recs with
  | nil => intro h _; cases h
  | cons x rest ih =>
    intro hr hbad
    obtain ⟨a, v⟩ := x
    rcases List.mem_cons.mp hr with rfl | hmem
    · rcases hbad with hb | hb
      · cases h16 : pack16 v.length <;> simp [encodeRecords, hb, h16]
      · cases h32 : pack32 a <;> simp [encodeRecords, hb, h32]
    · have ht := ih hmem hbad
      cases h32 : pack32 a <;> cases h16 : pack16 v.length <;>
        simp [encodeRecords, h32, h16, ht]

theorem pySplitAux_tokens :
    ∀ (l acc : List Char), (∀ c ∈ acc, isPyWs c = false) →
      ∀ t ∈ pySplitAux l acc, t ≠ [] ∧ ∀ c ∈ t, isPyWs c = false := by
  intro l
  induction l with
  | nil =>
    intro acc hacc t ht
    unfold pySplitAux at ht
    by_cases h : acc = []
    · rw [if_pos h] at ht
      cases ht
    · rw [if_neg h] at ht
      rcases List.mem_singleton.mp ht with rfl
      refine ⟨by simpa using h, fun c hc => hacc c (List.mem_reverse.mp hc)⟩
  | cons c cs ih =>
    intro acc hacc t ht
    unfold pySplitAux at ht
    cases hb : isPyWs c
    · rw [hb, if_neg (by simp : ¬(false = true))] at ht
      refine ih (c :: acc) ?_ t ht
      intro d hd
      rcases List.mem_cons.mp hd with rfl | hd
      · exact hb
      · exact hacc d hd
    · rw [hb, if_pos rfl] at ht
      by_cases h : acc = []
      · rw [if_pos h] at ht
        exact ih [] (by simp) t ht
      · rw [if_neg h] at ht
        rcases List.mem_cons.mp ht with rfl | hmem
        · exact ⟨by simpa using h, fun d hd => hacc d (List.mem_reverse.mp hd)⟩
        · exact ih [] (by simp) t hmem

theorem pySplit_tokens (l : List Char) :
    ∀ t ∈ pySplit l, t ≠ [] ∧ ∀ c ∈ t, isPyWs c = false :=
  pySplitAux_tokens l [] (by simp)

theorem hexPairs_ne_nil : ∀ (t : List Char) (v : List Nat), t ≠ [] → hexPairs t = some v → v ≠ []
  | [], _, ht, _ => absurd rfl ht
  | [c], v, _, hv => by simp [hexPairs] at hv
  | c1 :: c2 :: r, v, _, hv => by
    unfold hexPairs at hv
    cases h1 : digitValB 16 c1 <;> rw [h1] at hv
    · simp at hv
    · cases h2 : digitValB 16 c2 <;> rw [h2] at hv
      · simp at hv
      · simp only [Option.map_eq_some'] at hv
        obtain ⟨tail, -, hvv⟩ := hv
        rw [← hvv]
        exact List.cons_ne_nil _ _

theorem entryParse_entry_payload (ls : List Char) (a : Int) (v : List Nat)
    (h : entryParse ls = .entry a v) : v ≠ [] := by
  unfold entryParse at h
  cases hs : pySplit ls with
  | nil => rw [hs] at h; simp at h
  | cons t0 rest =>
    cases rest with
    | nil => rw [hs] at h; simp at h
    | cons t1 rest2 =>
      rw [hs] at h
      dsimp only at h
      unfold parseAddrVal at h
      cases hi : pyInt t0 16 with
      | none => rw [hi] at h; simp at h
      | some addr =>
        rw [hi] at h
        cases hf : fromHexChars t1 with
        | none => rw [hf] at h; simp at h
        | some bytes =>
          rw [hf] at h
          simp only [EntryRes.entry.injEq] at h
          obtain ⟨-, rfl⟩ := h
          have hmem : t1 ∈ pySplit ls := by
            rw [hs]
            exact List.mem_cons_of_mem _ (List.mem_cons_self _ _)
          obtain ⟨hne, hws⟩ := pySplit_tokens ls t1 hmem
          have hfilter : t1.filter (fun c => !isPyWs c) = t1 := by
            rw [List.filter_eq_self]
            intro c hc
            simp [hws c hc]
          rw [fromHexChars, hfilter] at hf
          exact hexPairs_ne_nil t1 bytes hne hf

theorem specAccept_payload (off : Int) (s : Bool × Bool) (l : Line)
    (r : Int × List Nat) (h : specAccept off s l = some r) : r.2 ≠ [] := by
  unfold specAccept at h
  dsimp only at h
  split_ifs at h <;> try exact absurd h (by simp)
  cases he : entryParse (pyStrip l)
  all_goals rw [he] at h
  all_goals dsimp only at h
  · simp at h
  · simp at h
  · simp at h
  · simp only [Option.some.injEq] at h
    subst h
    exact entryParse_entry_payload (pyStrip l) _ _ he

theorem specRecords_payload (off : Int) (lines : List Line) :
    ∀ (s : Bool × Bool) (r : Int × List Nat), r ∈ specRecords off s lines → r.2 ≠ [] := by
  induction lines with
  | nil => intro s r h; simp [specRecords] at h
  | cons l ls ih =>
    intro s r h
    simp only [specRecords] at h
    rcases List.mem_append.mp h with h1 | h2
    · cases ha : specAccept off s l with
      | none => rw [ha] at h1; simp at h1
      | some x =>
        rw [ha] at h1
        simp at h1
        subst h1
        exact specAccept_payload off s l _ ha
    · exact ih _ r h2

theorem patchStep_def (off : Int) (s : PState) (l : Line) :
    patchStep off s l = patchStepCore off s (pyStrip l) := rfl

theorem patchRun_def (off : Int) (lines : List Line) :
    patchRun off lines = lines.foldl (patchStep off) ⟨false, false, [], []⟩ := rfl

theorem patchesOf_def (off : Int) (lines : List Line) :
    patchesOf off lines = (patchRun off lines).patches := rfl

theorem docPatches_def (lines : List Line) :
    docPatches lines = patchesOf (docMeta lines).off lines := rfl

theorem convertLines_def (fb : List Char) (lines : List Line) :
    convertLines fb lines =
      if docPatches lines = [] then .noPatches
      else
        match encodeRecords (docPatches lines) with
        | none => .packError
        | some data =>
          .ok (docName fb lines ++ ".ips".toList) (headMagic ++ data ++ footMagic) := rfl

theorem entryParse_two (ls a v : List Char) (rest : List (List Char))
    (h : pySplit ls = a :: v :: rest) : entryParse ls = parseAddrVal a v := by
  unfold entryParse
  rw [h]

theorem parseAddrVal_entry (a v : List Char) (addr : Int) (bytes : List Nat)
    (h1 : pyInt a 16 = some addr) (h2 : fromHexChars v = some bytes) :
    parseAddrVal a v = .entry addr bytes := by
  unfold parseAddrVal
  rw [h1]
  dsimp only
  rw [h2]

theorem patchStepCore_entry (off : Int) (s : PState) (ls : List Char)
    (addr : Int) (bytes : List Nat)
    (h0 : ls ≠ []) (h1 : ls ≠ stopTok) (h2 : s.stopped = false) (h3 : ls ≠ enabledTok)
    (h4 : ls ≠ disabledTok) (h5 : isCommentLine ls = false) (h6 : s.enabled = true)
    (h7 : entryParse ls = .entry addr bytes) :
    patchStepCore off s ls = { s with patches := s.patches ++ [(addr + off, bytes)] } := by
  unfold patchStepCore
  rw [if_neg h0, if_neg h1]
  rw [if_neg (show ¬(s.stopped = true) from by rw [h2]; simp)]
  rw [if_neg h3, if_neg h4, h5, if_neg (by simp : ¬(false = true))]
  rw [if_neg (show ¬(s.enabled = false) from by rw [h6]; simp)]
  rw [h7]

theorem encodeRecords_cons (a : Int) (v : List Nat) (rest : List (Int × List Nat)) :
    encodeRecords ((a, v) :: rest) =
      match pack32 a, pack16 v.length, encodeRecords rest with
      | some ab, some lb, some tail => some (ab ++ lb ++ v ++ tail)
      | _, _, _ => none := rfl

theorem bigEntryLine_cons : bigEntryLine = '1' :: ('0' :: '0' :: '0' :: ' ' :: bigTok) := rfl

theorem strip_big : pyStrip bigEntryLine = bigEntryLine := by
  have hd1 : bigEntryLine.dropWhile isPyWs = bigEntryLine := by
    rw [bigEntryLine_cons, List.dropWhile_cons]
    rw [show isPyWs '1' = false from rfl, if_neg (by simp : ¬(false = true))]
  have hd2 : bigEntryLine.reverse.dropWhile isPyWs = bigEntryLine.reverse := by
    unfold bigEntryLine bigTok
    rw [List.reverse_append, List.reverse_replicate]
    rw [show (131072 : Nat) = 131071 + 1 from rfl, List.replicate_succ, List.cons_append]
    rw [List.dropWhile_cons]
    rw [show isPyWs 'A' = false from rfl, if_neg (by simp : ¬(false = true))]
  unfold pyStrip
  rw [hd1, hd2, List.reverse_reverse]

theorem pySplitAux_nil (acc : List Char) :
    pySplitAux [] acc = if acc = [] then [] else [acc.reverse] := rfl

theorem pySplitAux_cons (c : Char) (cs acc : List Char) :
    pySplitAux (c :: cs) acc =
      if isPyWs c then
        if acc = [] then pySplitAux cs [] else acc.reverse :: pySplitAux cs []
      else pySplitAux cs (c :: acc) := rfl

theorem pySplitAux_chunk :
    ∀ (w : List Char), (∀ c ∈ w, isPyWs c = false) →
      ∀ (r acc : List Char), pySplitAux (w ++ r) acc = pySplitAux r (w.reverse ++ acc) := by
  intro w
  induction w with
  | nil => intro _ r acc; simp
  | cons c cs ih =>
    intro hw r acc
    rw [List.cons_append]
    simp only [pySplitAux]
    rw [hw c (List.mem_cons_self c cs)]
    rw [if_neg (by simp : ¬(false = true))]
    rw [ih (fun d hd => hw d (List.mem_cons_of_mem c hd)) r (c :: acc)]
    simp [List.append_assoc]

theorem split_big : pySplit bigEntryLine = ["1000".toList, bigTok] := by
  have hw1 : ∀ c ∈ ("1000".toList : List Char), isPyWs c = false := by decide
  have hw2 : ∀ c ∈ bigTok, isPyWs c = false := by
    intro c hc
    unfold bigTok at hc
    rw [List.eq_of_mem_replicate hc]
    rfl
  unfold pySplit
  rw [show bigEntryLine = "1000".toList ++ (' ' :: bigTok) from rfl]
  rw [pySplitAux_chunk "1000".toList hw1 (' ' :: bigTok) []]
  rw [pySplitAux_cons]
  rw [show isPyWs ' ' = true from rfl, if_pos rfl]
  rw [if_neg (show ¬("1000".toList.reverse ++ ([] : List Char) = []) from by decide)]
  rw [show ("1000".toList.reverse ++ ([] : List Char)).reverse = "1000".toList from by decide]
  have hchunk : pySplitAux (bigTok ++ []) [] = pySplitAux [] (bigTok.reverse ++ []) :=
    pySplitAux_chunk bigTok hw2 [] []
  rw [List.append_nil] at hchunk
  rw [hchunk, List.append_nil]
  have hne : bigTok.reverse ≠ [] := by
    intro h
    have hlen := congrArg List.length h
    rw [List.length_reverse] at hlen
    unfold bigTok at hlen
    rw [List.length_replicate] at hlen
    exact absurd hlen (by norm_num)
  rw [pySplitAux_nil]
  rw [if_neg hne, List.reverse_reverse]

theorem hexPairs_replicate :
    ∀ n : Nat, hexPairs (List.replicate (2 * n) 'A') = some (List.replicate n 170) := by
  intro n
  induction n with
  | zero => rfl
  | succ m ih =>
    rw [show 2 * (m + 1) = 2 * m + 1 + 1 by ring]
    rw [List.replicate_succ, List.replicate_succ]
    simp only [hexPairs]
    rw [show digitValB 16 'A' = some 10 from rfl]
    dsimp only
    rw [ih]
    norm_num [List.replicate_succ]

theorem fromHex_big : fromHexChars bigTok = some (List.replicate 65536 170) := by
  unfold fromHexChars
  have hf : bigTok.filter (fun c => !isPyWs c) = bigTok := by
    rw [List.filter_eq_self]
    intro c hc
    unfold bigTok at hc
    rw [List.eq_of_mem_replicate hc]
    rfl
  rw [hf]
  unfold bigTok
  rw [show (131072 : Nat) = 2 * 65536 from rfl]
  exact hexPairs_replicate 65536

theorem entryParse_big : entryParse bigEntryLine = .entry 4096 (List.replicate 65536 170) :=
  (entryParse_two bigEntryLine "1000".toList bigTok [] split_big).trans
    (parseAddrVal_entry "1000".toList bigTok 4096 (List.replicate 65536 170)
      (by decide) fromHex_big)

theorem docMeta_big : docMeta bigLines = ⟨none, 0, []⟩ := by
  unfold docMeta bigLines
  rw [List.foldl_cons, List.foldl_cons, List.foldl_nil]
  rw [show metaStep ⟨none, 0, []⟩ "@enabled".toList = ⟨none, 0, []⟩ from by decide]
  apply metaStep_skip
  · rw [strip_big, bigEntryLine_cons, show nsobidPfx = '@' :: "nsobid-".toList from rfl]
    exact leadsWith_cons_false rfl
  · rw [strip_big, bigEntryLine_cons, show offsetPfx = '@' :: "flag offset_shift".toList from rfl]
    exact leadsWith_cons_false rfl

theorem patchStep_big : patchStep 0 ⟨true, false, [], []⟩ bigEntryLine =
    ⟨true, false, [(4096, List.replicate 65536 170)], []⟩ := by
  have hh : bigEntryLine.head? = some '1' := by rw [bigEntryLine_cons]; rfl
  have h0 : bigEntryLine ≠ [] := by rw [bigEntryLine_cons]; simp
  have hstp : bigEntryLine ≠ stopTok := by
    intro h
    rw [h] at hh
    exact absurd hh (by decide)
  have hen : bigEntryLine ≠ enabledTok := by
    intro h
    rw [h] at hh
    exact absurd hh (by decide)
  have hdis : bigEntryLine ≠ disabledTok := by
    intro h
    rw [h] at hh
    exact absurd hh (by decide)
  have hcmt : isCommentLine bigEntryLine = false := by
    rw [bigEntryLine_cons]
    unfold isCommentLine
    rw [leadsWith_cons_false (show ('@' == '1') = false from rfl)]
    rw [leadsWith_cons_false (show ('/' == '1') = false from rfl)]
    rw [leadsWith_cons_false (show ('#' == '1') = false from rfl)]
    rfl
  rw [patchStep_def, strip_big]
  rw [patchStepCore_entry 0 ⟨true, false, [], []⟩ bigEntryLine 4096 (List.replicate 65536 170)
    h0 hstp rfl hen hdis hcmt rfl entryParse_big]
  simp only [add_zero, List.nil_append]

theorem docPatches_big : docPatches bigLines = [(4096, List.replicate 65536 170)] := by
  rw [docPatches_def, docMeta_big, show (MetaState.mk none 0 []).off = 0 from rfl,
    patchesOf_def, patchRun_def, show bigLines = ["@enabled".toList, bigEntryLine] from rfl,
    List.foldl_cons, List.foldl_cons, List.foldl_nil,
    show patchStep 0 ⟨false, false, [], []⟩ "@enabled".toList = ⟨true, false, [], []⟩ from by decide,
    patchStep_big]

theorem encode_big_none : encodeRecords [(4096, List.replicate 65536 170)] = none := by
  rw [encodeRecords_cons]
  rw [List.length_replicate, show pack32 (4096 : Int) = some [0, 0, 16, 0] from by decide,
    pack16_eq_none_of_big (by norm_num : (65536 : Nat) ≤ 65536)]

/-- C1 counterexample: a `@flag offset_shift` directive inserted after the
first `@stop` line changes the compiled record sequence (the prepass that
extracts the offset scans the whole file and ignores `@stop`), so a line
after `@stop` is not without effect. -/
theorem stop_directive_cex :
    docPatches ["@enabled".toList, "1000 AB".toList, "@stop".toList,
        "@flag offset_shift 0x10".toList]
      ≠ docPatches ["@enabled".toList, "1000 AB".toList, "@stop".toList] := by
  decide

/-- C1 (corrected): after a `@stop` line, inserted entries and
`@enabled`/`@disabled` lines — any lines that are neither naming directives
nor offset-shift directives — have no effect on the conversion result;
naming and offset-shift directives, however, still take effect because the
metadata prepass ignores `@stop`. -/
theorem stop_inert_entries_toggles (fb : List Char) (pre mid suf : List Line)
    (hstop : ∃ l ∈ pre, pyStrip l = stopTok)
    (hmid : ∀ m ∈ mid, leadsWith nsobidPfx (pyStrip m) = false ∧
      leadsWith offsetPfx (pyStrip m) = false) :
    convertLines fb (pre ++ mid ++ suf) = convertLines fb (pre ++ suf) := by
  have hmeta : docMeta (pre ++ mid ++ suf) = docMeta (pre ++ suf) := by
    unfold docMeta
    simp only [List.foldl_append]
    rw [foldl_metaStep_skip mid _ hmid]
  have hpatch : docPatches (pre ++ mid ++ suf) = docPatches (pre ++ suf) := by
    rw [docPatches_def, docPatches_def, hmeta]
    rw [patchesOf_def, patchesOf_def, patchRun_def, patchRun_def]
    simp only [List.foldl_append]
    have hstopped :
        (List.foldl (patchStep (docMeta (pre ++ suf)).off) ⟨false, false, [], []⟩ pre).stopped
          = true :=
      foldl_patchStep_reaches_stop _ pre _ hstop
    rw [foldl_patchStep_stopped_fix _ mid _ hstopped]
  have hname : docName fb (pre ++ mid ++ suf) = docName fb (pre ++ suf) := by
    unfold docName
    rw [hmeta]
  rw [convertLines_def, convertLines_def, hpatch, hname]

/-- C1 witness: a concrete document in which the lines inserted after
`@stop` (an entry and an `@enabled`) leave the conversion unchanged. -/
theorem stop_inert_entries_toggles_witness :
    convertLines "demo".toList
        (["@enabled".toList, "1000 AB".toList, "@stop".toList] ++
          ["2000 CD".toList, "@enabled".toList] ++ []) =
      convertLines "demo".toList
        (["@enabled".toList, "1000 AB".toList, "@stop".toList] ++ []) :=
  stop_inert_entries_toggles "demo".toList _ _ _ (by decide) (by decide)

/-- C2 counterexample: with two naming directives `@nsobid-A` then
`@nsobid-B`, the identifier is `B`, not the first occurrence `A` — later
occurrences do overwrite. -/
theorem nsobid_first_wins_cex :
    docName "file".toList ["@nsobid-A".toList, "@nsobid-B".toList] ≠ "A".toList ∧
    docName "file".toList ["@nsobid-A".toList, "@nsobid-B".toList] = "B".toList := by
  decide

/-- C2 (corrected): the document identifier is taken from the last naming
directive: every `@nsobid-` line overwrites the identifier, so if a naming
line with non-empty text is followed by no further naming line, the
identifier equals that line's text. -/
theorem nsobid_last_wins (fb : List Char) (pre suf : List Line) (l : Line)
    (hl : leadsWith nsobidPfx (pyStrip l) = true)
    (hsuf : ∀ m ∈ suf, leadsWith nsobidPfx (pyStrip m) = false)
    (hne : pyStrip ((pyStrip l).drop 8) ≠ []) :
    docName fb (pre ++ l :: suf) = pyStrip ((pyStrip l).drop 8) := by
  unfold docName docMeta
  rw [List.foldl_append, List.foldl_cons]
  rw [foldl_metaStep_nsobid_keep suf _ hsuf]
  have hn : (metaStep (List.foldl metaStep ⟨none, 0, []⟩ pre) l).nsobid
      = some (pyStrip ((pyStrip l).drop 8)) := by
    unfold metaStep metaStepCore
    rw [if_pos hl]
  rw [hn]
  dsimp only
  rw [if_neg hne]

/-- C2 witness: `@nsobid-A` followed by `@nsobid-B` (and a non-naming line)
resolves the identifier to the text of the later directive. -/
theorem nsobid_last_wins_witness :
    docName "file".toList
        (["@nsobid-A".toList] ++ "@nsobid-B".toList :: ["@flag offset_shift 8".toList])
      = pyStrip ((pyStrip "@nsobid-B".toList).drop 8) :=
  nsobid_last_wins "file".toList _ _ _ (by decide) (by decide) (by decide)

/-- C3 counterexample: a valid `@flag offset_shift 0x100` followed by an
invalid `@flag offset_shift zzz` leaves `offset_shift` at 0, not at the
prior valid value 256 — the parse failure resets it. -/
theorem offset_reset_cex :
    (docMeta ["@flag offset_shift 0x100".toList, "@flag offset_shift zzz".toList]).off ≠ 256 ∧
    (docMeta ["@flag offset_shift 0x100".toList, "@flag offset_shift zzz".toList]).off = 0 := by
  decide

/-- C3 (corrected): when an offset-shift directive's numeric token fails to
parse, a warning is emitted and `offset_shift` is reset to 0 — it does not
keep its prior value; compilation continues (the step only touches `off`
and `warns`). -/
theorem offset_invalid_resets_to_zero (s : MetaState) (l : Line)
    (hn : leadsWith nsobidPfx (pyStrip l) = false)
    (ho : leadsWith offsetPfx (pyStrip l) = true)
    (hlen : 3 ≤ (pySplit (pyStrip l)).length)
    (hp : pyInt ((pySplit (pyStrip l)).getD 2 []) 0 = none) :
    metaStep s l =
      { s with off := 0, warns := s.warns ++ [.invalidOffset ((pySplit (pyStrip l)).getD 2 [])] } := by
  unfold metaStep metaStepCore
  rw [hn, if_neg (by simp : ¬(false = true)), if_pos ho, if_pos hlen, hp]

/-- C3 witness: the invalid directive `@flag offset_shift zzz` applied to a
state whose offset is 256 resets the offset to 0 and appends a warning. -/
theorem offset_invalid_resets_to_zero_witness :
    metaStep ⟨none, 256, []⟩ "@flag offset_shift zzz".toList =
      ⟨none, 0, [.invalidOffset "zzz".toList]⟩ := by
  rw [offset_invalid_resets_to_zero ⟨none, 256, []⟩ "@flag offset_shift zzz".toList
    (by decide) (by decide) (by decide) (by decide)]
  decide

/-- C4 counterexample: with offset 0x10 and enabled entry `FFFFFFFF 01`,
the resolved address 0x10000000F exceeds 32 bits and the conversion fails
with a pack error instead of succeeding silently with a wrapped address. -/
theorem overflow_packs_error_cex :
    convertLines "demo".toList
      ["@flag offset_shift 0x10".toList, "@enabled".toList, "FFFFFFFF 01".toList]
      = .packError := by
  decide

/-- C4 (corrected): the recorded address is the exact integer sum
`provisional + offset_shift` (no reduction modulo 2^32); when a record's
address is ≥ 2^32 the encoder's 4-byte serialization fails and the whole
conversion ends in a pack error — overflow is not wrapped and not silent. -/
theorem address_overflow_pack_fails (fb : List Char) (lines : List Line)
    (r : Int × List Nat) (hr : r ∈ docPatches lines) (hbig : (4294967296 : Int) ≤ r.1) :
    convertLines fb lines = .packError := by
  have hnil : docPatches lines ≠ [] := List.ne_nil_of_mem hr
  have henc : encodeRecords (docPatches lines) = none :=
    encodeRecords_eq_none (docPatches lines) hr (Or.inl (pack32_eq_none_of_big hbig))
  rw [convertLines_def, if_neg hnil, henc]

/-- C4 witness: the overflowing document from the counterexample, via the
general theorem. -/
theorem address_overflow_pack_fails_witness :
    convertLines "w".toList
      ["@flag offset_shift 0x10".toList, "@enabled".toList, "FFFFFFFF 01".toList]
      = .packError :=
  address_overflow_pack_fails "w".toList _ (4294967311, [1]) (by decide) (by decide)

/-- C5 (confirmed): the compiled record sequence is exactly the spec-side
scan — each well-formed entry line in an enabled, non-stopped region
contributes one record, no other line contributes, and the order is the
source order. -/
theorem records_are_enabled_entries_in_order (lines : List Line) :
    docPatches lines = specRecords (docMeta lines).off (false, false) lines := by
  rw [docPatches_def]
  exact patchesOf_eq_spec _ lines

/-- C6 (confirmed): offset-shift is purely additive — record sequences for
shift `K` and shift 0 are the position-wise map adding `K`, hence equal
length, identical payloads, and addresses differing by exactly `K`
modulo 2^32. -/
theorem offset_shift_additive (lines : List Line) (K : Int) :
    patchesOf K lines = (patchesOf 0 lines).map (fun r => (r.1 + K, r.2)) ∧
    (patchesOf K lines).length = (patchesOf 0 lines).length ∧
    ((patchesOf K lines).zip (patchesOf 0 lines)).all
      (fun p => decide (p.1.2 = p.2.2) &&
        decide ((p.1.1 - p.2.1) % (4294967296 : Int) = K % 4294967296)) = true := by
  refine ⟨patchesOf_shift K lines, ?_, ?_⟩
  · rw [patchesOf_shift K lines, List.length_map]
  · rw [patchesOf_shift K lines]
    have hall : ∀ l : List (Int × List Nat),
        ((l.map fun r => (r.1 + K, r.2)).zip l).all
          (fun p => decide (p.1.2 = p.2.2) &&
            decide ((p.1.1 - p.2.1) % (4294967296 : Int) = K % 4294967296)) = true := by
      intro l
      induction l with
      | nil => rfl
      | cons x xs ih =>
        simp only [List.map_cons, List.zip_cons_cons, List.all_cons, ih, Bool.and_true]
        rw [Bool.and_eq_true, decide_eq_true_eq, decide_eq_true_eq]
        exact ⟨by trivial, by rw [add_sub_cancel_left]⟩
    exact hall (patchesOf 0 lines)

/-- C7 (confirmed): if the whole document yields zero records, the
conversion reports the "no patches" outcome and produces no output
artifact. -/
theorem no_patches_no_output (fb : List Char) (lines : List Line)
    (h : docPatches lines = []) : convertLines fb lines = .noPatches := by
  rw [convertLines_def, if_pos h]

/-- C7 witness: an all-disabled document ends in the "no patches" outcome. -/
theorem no_patches_no_output_witness :
    convertLines "demo".toList ["@disabled".toList, "1000 AB".toList] = .noPatches :=
  no_patches_no_output "demo".toList _ (by decide)

/-- C8 counterexample: the enabled entry line `1000 AB C` is not skipped —
tokenization takes `AB` as the value token and ignores the trailing `C`,
so the line contributes the record (0x1000, [0xAB]). -/
theorem odd_hex_example_cex :
    docPatches ["@enabled".toList, "1000 AB C".toList] = [(4096, [171])] := by
  decide

/-- C8 (corrected): an enabled entry line whose value token itself is
odd-length hex (such as `1000 ABC`) is skipped with a warning, leaving the
parse state and the collected records unchanged so that compilation of the
remaining entries continues; the claim's example `1000 AB C` is not such a
line, because the value token is `AB` and `C` is an ignored trailing
token. -/
theorem odd_hex_value_skipped_with_warning (off : Int) (s : PState) (l : Line)
    (tok : List Char)
    (h0 : pyStrip l ≠ []) (h1 : pyStrip l ≠ stopTok) (h2 : s.stopped = false)
    (h3 : pyStrip l ≠ enabledTok) (h4 : pyStrip l ≠ disabledTok)
    (h5 : isCommentLine (pyStrip l) = false) (h6 : s.enabled = true)
    (h7 : entryParse (pyStrip l) = .badHex tok) :
    patchStep off s l = { s with warns := s.warns ++ [.invalidHex tok] } := by
  rw [patchStep_def]
  unfold patchStepCore
  rw [if_neg h0, if_neg h1]
  rw [if_neg (show ¬(s.stopped = true) from by rw [h2]; simp)]
  rw [if_neg h3, if_neg h4, h5, if_neg (by simp : ¬(false = true)),
    if_neg (show ¬(s.enabled = false) from by rw [h6]; simp), h7]

/-- C8 witness: the genuinely odd-length entry `1000 ABC` in an enabled
section adds no record and emits an invalid-hex warning. -/
theorem odd_hex_value_skipped_with_warning_witness :
    patchStep 0 ⟨true, false, [], []⟩ "1000 ABC".toList =
      ⟨true, false, [], [.invalidHex "ABC".toList]⟩ := by
  rw [odd_hex_value_skipped_with_warning 0 ⟨true, false, [], []⟩ "1000 ABC".toList
    "ABC".toList (by decide) (by decide) rfl (by decide) (by decide) (by decide) rfl
    (by decide)]
  decide

/-- C9 counterexample: an enabled entry whose value token encodes 65536
bytes is accepted by the parser (no upstream length cap), and the 2-byte
length serialization then fails, so the conversion ends in a pack error. -/
theorem oversized_payload_cex : convertLines "demo".toList bigLines = .packError := by
  rw [convertLines_def, docPatches_big]
  rw [if_neg (List.cons_ne_nil _ _)]
  rw [encode_big_none]

/-- C9 (corrected): payload length is not enforced before encoding; whenever
a record's payload has ≥ 65536 bytes, the 2-byte big-endian length field
cannot be written and the conversion ends in a pack error. -/
theorem oversized_payload_pack_fails (fb : List Char) (lines : List Line)
    (r : Int × List Nat) (hr : r ∈ docPatches lines) (hbig : 65536 ≤ r.2.length) :
    convertLines fb lines = .packError := by
  have hnil : docPatches lines ≠ [] := List.ne_nil_of_mem hr
  have henc : encodeRecords (docPatches lines) = none :=
    encodeRecords_eq_none (docPatches lines) hr (Or.inr (pack16_eq_none_of_big hbig))
  rw [convertLines_def, if_neg hnil, henc]

/-- C9 witness: the 65536-byte-payload document, via the general theorem. -/
theorem oversized_payload_pack_fails_witness :
    convertLines "w".toList bigLines = .packError :=
  oversized_payload_pack_fails "w".toList bigLines (4096, List.replicate 65536 170)
    (by rw [docPatches_big]; exact List.mem_singleton_self _)
    (by rw [List.length_replicate])

/-- C10 (confirmed): every record the compilation produces has a non-empty
payload — value tokens from whitespace splitting are non-empty, and a
non-empty token parsed as hex byte pairs yields at least one byte. -/
theorem payloads_nonempty (lines : List Line) :
    ((docPatches lines).all fun r => decide (1 ≤ r.2.length)) = true := by
  rw [docPatches_def, patchesOf_eq_spec, List.all_eq_true]
  intro r hr
  have hne := specRecords_payload (docMeta lines).off lines (false, false) r hr
  rw [decide_eq_true_eq]
  exact List.length_pos.mpr hne

end Pchtxt
